import Mathlib

/-!
Verification development for the SB-finance client-side encryption layer
(`static/js/crypto.js`).

Modelling conventions (shallow embedding):
* JS byte buffers (`Uint8Array` / `ArrayBuffer`) are `List Nat` whose
  elements are below 256; the byte bound is carried as a hypothesis where
  it matters.
* JS strings are Lean `String` (sequences of Unicode scalar values).
* The WebCrypto AES-GCM primitive (`crypto.subtle.encrypt` / `decrypt`) is
  not part of the repository; it is modelled as a structure `AEAD` whose
  fields state exactly the behaviour WebCrypto guarantees for AES-GCM with
  a 128-bit tag: the output is ciphertext-with-tag of length
  `plaintext + 16`, and decryption with the same key and IV inverts
  encryption.  All theorems quantify over an arbitrary such primitive; a
  concrete instance (`modelAEAD`) shows the contract is satisfiable and is
  used to evaluate witnesses.
* Likewise PBKDF2 (`crypto.subtle.deriveBits`) is a structure `KDF` whose
  field produces `bits / 8` output bytes.
* Randomness (`crypto.getRandomValues`, `Math.random`) is passed in as an
  explicit argument (the IV, the fresh key, the word indices).
* Fallible operations return `Option` / `Except`; a JS `throw` that the
  source does not catch is an `Except.error`.
-/

set_option maxRecDepth 4000

namespace SBF

/-! ## Base64 framing (CryptoManager.arrayBufferToBase64 / base64ToArrayBuffer)

The source converts each byte to a char with `String.fromCharCode` and calls
`btoa`; the reverse uses `atob` and `charCodeAt`.  The net effect is standard
base64 over the raw bytes, which is what is modelled here: `encB` / `decB`
work on the 6-bit groups, `toB64Char` / `fromB64Char` are the alphabet maps
used by `btoa` / `atob`, and `padOf` is the `=` padding `btoa` appends. -/

def base64Alphabet : List Char :=
  "ABCDEFGHIJKLMNOPQRSTUVWXYZabcdefghijklmnopqrstuvwxyz0123456789+/".data

def toB64Char (s : Nat) : Char := base64Alphabet.getD s 'A'

def fromB64Char (c : Char) : Nat := base64Alphabet.indexOf c

/-- Bytes to 6-bit groups, 3 bytes at a time (the grouping `btoa` performs). -/
def encB : List Nat → List Nat
  | a :: b :: c :: rest =>
    (a / 4) :: (a % 4 * 16 + b / 16) :: (b % 16 * 4 + c / 64) :: (c % 64) :: encB rest
  | [a, b] => [a / 4, a % 4 * 16 + b / 16, b % 16 * 4]
  | [a] => [a / 4, a % 4 * 16]
  | [] => []

/-- 6-bit groups back to bytes (the grouping `atob` performs). -/
def decB : List Nat → List Nat
  | s0 :: s1 :: s2 :: s3 :: rest =>
    (s0 * 4 + s1 / 16) :: (s1 % 16 * 16 + s2 / 4) :: (s2 % 4 * 64 + s3) :: decB rest
  | [s0, s1, s2] => [s0 * 4 + s1 / 16, s1 % 16 * 16 + s2 / 4]
  | [s0, s1] => [s0 * 4 + s1 / 16]
  | _ => []

/-- The `=` padding `btoa` appends for a trailing group of 1 or 2 bytes. -/
def padOf (n : Nat) : List Char :=
  match n % 3 with
  | 1 => ['=', '=']
  | 2 => ['=']
  | _ => []

end SBF

namespace SBF.CryptoManager

/-- `arrayBufferToBase64(buffer)`: base64-encode a byte buffer. -/
def arrayBufferToBase64 (bytes : List Nat) : String :=
  String.mk ((SBF.encB bytes).map SBF.toB64Char ++ SBF.padOf bytes.length)

/-- `base64ToArrayBuffer(base64)`: decode a base64 string to bytes
(`atob` accepts the `=` padding and contributes no bytes for it). -/
def base64ToArrayBuffer (s : String) : List Nat :=
  SBF.decB ((s.data.filter (fun c => c != '=')).map SBF.fromB64Char)

end SBF.CryptoManager

namespace SBF


/-! ## UTF-8 (TextEncoder / TextDecoder model)

`encrypt` runs `new TextEncoder().encode(plaintext)` and `decrypt` runs
`new TextDecoder().decode(bytes)`.  Both are modelled concretely: the
encoder is the standard UTF-8 encoding of the string's scalar values, the
decoder is a total UTF-8 decoder that (like the default non-fatal
`TextDecoder`) substitutes U+FFFD on malformed input instead of failing. -/

def replChar : Char := Char.ofNat 0xFFFD

def utf8EncodeChar (c : Char) : List Nat :=
  if c.toNat < 0x80 then [c.toNat]
  else if c.toNat < 0x800 then [0xC0 + c.toNat / 64, 0x80 + c.toNat % 64]
  else if c.toNat < 0x10000 then
    [0xE0 + c.toNat / 4096, 0x80 + c.toNat / 64 % 64, 0x80 + c.toNat % 64]
  else
    [0xF0 + c.toNat / 262144, 0x80 + c.toNat / 4096 % 64, 0x80 + c.toNat / 64 % 64,
      0x80 + c.toNat % 64]

def stringToUtf8 (s : String) : List Nat :=
  s.data.flatMap utf8EncodeChar

/-- Decode one scalar value: given the first byte and the remaining bytes,
return the decoded character and the bytes left over.  Malformed input
yields U+FFFD (the non-fatal `TextDecoder` behaviour). -/
def utf8Step (b0 : Nat) (rest : List Nat) : Char × List Nat :=
  if b0 < 0x80 then (Char.ofNat b0, rest)
  else if 0xC2 ≤ b0 ∧ b0 < 0xE0 then
    match rest with
    | b1 :: r2 =>
      if 0x80 ≤ b1 ∧ b1 < 0xC0 then (Char.ofNat ((b0 - 0xC0) * 64 + (b1 - 0x80)), r2)
      else (replChar, b1 :: r2)
    | [] => (replChar, [])
  else if 0xE0 ≤ b0 ∧ b0 < 0xF0 then
    match rest with
    | b1 :: b2 :: r3 =>
      if (0x80 ≤ b1 ∧ b1 < 0xC0) ∧ (0x80 ≤ b2 ∧ b2 < 0xC0) then
        if 0x800 ≤ (b0 - 0xE0) * 4096 + (b1 - 0x80) * 64 + (b2 - 0x80) ∧
            ((b0 - 0xE0) * 4096 + (b1 - 0x80) * 64 + (b2 - 0x80) < 0xD800 ∨
              0xDFFF < (b0 - 0xE0) * 4096 + (b1 - 0x80) * 64 + (b2 - 0x80)) then
          (Char.ofNat ((b0 - 0xE0) * 4096 + (b1 - 0x80) * 64 + (b2 - 0x80)), r3)
        else (replChar, b1 :: b2 :: r3)
      else (replChar, b1 :: b2 :: r3)
    | [b1] => (replChar, [b1])
    | [] => (replChar, [])
  else if 0xF0 ≤ b0 ∧ b0 < 0xF5 then
    match rest with
    | b1 :: b2 :: b3 :: r4 =>
      if (0x80 ≤ b1 ∧ b1 < 0xC0) ∧ (0x80 ≤ b2 ∧ b2 < 0xC0) ∧ (0x80 ≤ b3 ∧ b3 < 0xC0) then
        if 0x10000 ≤ (b0 - 0xF0) * 262144 + (b1 - 0x80) * 4096 + (b2 - 0x80) * 64 + (b3 - 0x80) ∧
            (b0 - 0xF0) * 262144 + (b1 - 0x80) * 4096 + (b2 - 0x80) * 64 + (b3 - 0x80) < 0x110000 then
          (Char.ofNat ((b0 - 0xF0) * 262144 + (b1 - 0x80) * 4096 + (b2 - 0x80) * 64 + (b3 - 0x80)), r4)
        else (replChar, b1 :: b2 :: b3 :: r4)
      else (replChar, b1 :: b2 :: b3 :: r4)
    | [b1, b2] => (replChar, [b1, b2])
    | [b1] => (replChar, [b1])
    | [] => (replChar, [])
  else (replChar, rest)


/-- Run `utf8Step` until the input is exhausted.  The fuel only bounds the
recursion (each step consumes at least one byte, so `l.length` is always
enough); it makes the definition structurally recursive and hence
kernel-evaluable. -/
def utf8DecodeAux : Nat → List Nat → List Char
  | 0, _ => []
  | _, [] => []
  | fuel + 1, b0 :: rest => (utf8Step b0 rest).1 :: utf8DecodeAux fuel (utf8Step b0 rest).2

def utf8Decode (l : List Nat) : List Char :=
  utf8DecodeAux l.length l

def utf8DecodeString (l : List Nat) : String :=
  String.mk (utf8Decode l)



end SBF

namespace SBF

/-! ## The AEAD primitive (WebCrypto AES-GCM, external collaborator)

`crypto.subtle.encrypt` / `crypto.subtle.decrypt` with `AES-GCM` are not
code of this repository; the structure below captures exactly the contract
the Web Cryptography API specifies for AES-GCM with the default 128-bit
tag: encryption returns `ciphertext || tag` where the ciphertext part has
the plaintext's length and the tag is 16 bytes, and decryption with the
same key and IV recovers the plaintext.  Decryption on any other input is
unconstrained (it may fail or succeed), matching the API's freedom. -/

structure AEAD where
  ctPart : List Nat → List Nat → List Nat → List Nat
  tagPart : List Nat → List Nat → List Nat → List Nat
  dec : List Nat → List Nat → List Nat → Option (List Nat)
  ct_length : ∀ k iv pt, (ctPart k iv pt).length = pt.length
  tag_length : ∀ k iv pt, (tagPart k iv pt).length = 16
  ct_lt : ∀ k iv pt, (∀ b ∈ pt, b < 256) → ∀ b ∈ ctPart k iv pt, b < 256
  tag_lt : ∀ k iv pt, (∀ b ∈ pt, b < 256) → ∀ b ∈ tagPart k iv pt, b < 256
  dec_enc : ∀ k iv pt, (∀ b ∈ pt, b < 256) →
    dec k iv (ctPart k iv pt ++ tagPart k iv pt) = some pt

/-- The byte string `crypto.subtle.encrypt` returns: ciphertext with the
authentication tag appended. -/
def AEAD.encOut (A : AEAD) (k iv pt : List Nat) : List Nat :=
  A.ctPart k iv pt ++ A.tagPart k iv pt

end SBF

namespace SBF.CryptoManager

/-- `this.ivLength = 12` (96 bits for GCM). -/
def ivLength : Nat := 12

/-- `generateKey()` with the 256 random bits the primitive would produce
passed in as `raw`: export the key and base64-encode it. -/
def generateKey (raw : List Nat) : String :=
  arrayBufferToBase64 raw

/-- `importKey(base64Key)`: base64-decode and import as a raw AES key.
WebCrypto accepts exactly 128/192/256-bit raw AES key data; anything else
throws, which the source converts into an error (`none` here). -/
def importKey (base64Key : String) : Option (List Nat) :=
  let keyBuffer := base64ToArrayBuffer base64Key
  if keyBuffer.length = 16 ∨ keyBuffer.length = 24 ∨ keyBuffer.length = 32 then some keyBuffer
  else none

/-- `encrypt(plaintext, base64Key)` with the random IV passed in:
UTF-8 encode the plaintext, AEAD-encrypt, prepend the IV, base64. -/
def encrypt (A : AEAD) (plaintext : String) (base64Key : String) (iv : List Nat) :
    Option String :=
  match importKey base64Key with
  | some key =>
    let data := stringToUtf8 plaintext
    let encrypted := A.encOut key iv data
    some (arrayBufferToBase64 (iv ++ encrypted))
  | none => none

/-- `decrypt(encryptedBase64, base64Key)`: base64-decode, split the first
12 bytes as IV, AEAD-decrypt the remainder, UTF-8 decode.  Any failure is
caught and rethrown as a single error (`none`). -/
def decrypt (A : AEAD) (encryptedBase64 : String) (base64Key : String) : Option String :=
  match importKey base64Key with
  | some key =>
    let combined := base64ToArrayBuffer encryptedBase64
    let iv := combined.take ivLength
    let ciphertext := combined.drop ivLength
    match A.dec key iv ciphertext with
    | some decrypted => some (utf8DecodeString decrypted)
    | none => none
  | none => none

end SBF.CryptoManager

namespace SBF

/-! ## A concrete AEAD instance

`modelAEAD` is a toy stream-cipher-with-tag satisfying the `AEAD`
contract; it exists to show the contract is satisfiable and to evaluate
the concrete witnesses.  No theorem depends on its internals. -/

def modelMask (k iv : List Nat) : Nat :=
  (k.sum * 131 + iv.sum * 17 + 7) % 256

def modelCt (k iv pt : List Nat) : List Nat :=
  pt.map fun b => (b + modelMask k iv) % 256

def modelUnmask (k iv ct : List Nat) : List Nat :=
  ct.map fun b => (b + 256 - modelMask k iv) % 256

def modelTag (k iv ct : List Nat) : List Nat :=
  (List.range 16).map fun i => (k.sum + iv.sum * 3 + ct.sum * 5 + i) % 256

def modelDec (k iv buf : List Nat) : Option (List Nat) :=
  if 16 ≤ buf.length then
    let ct := buf.take (buf.length - 16)
    let tg := buf.drop (buf.length - 16)
    if tg = modelTag k iv ct then some (modelUnmask k iv ct) else none
  else none



def modelAEAD : AEAD where
  ctPart := modelCt
  tagPart := fun k iv pt => modelTag k iv (modelCt k iv pt)
  dec := modelDec
  ct_length := by intro k iv pt; simp [modelCt]
  tag_length := by intro k iv pt; simp [modelTag]
  ct_lt := by
    intro k iv pt h b hb
    rcases List.mem_map.mp hb with ⟨a, _, rfl⟩
    exact Nat.mod_lt _ (by omega)
  tag_lt := by
    intro k iv pt h b hb
    rcases List.mem_map.mp hb with ⟨a, _, rfl⟩
    exact Nat.mod_lt _ (by omega)
  dec_enc := by
    intro k iv pt h
    dsimp only
    unfold modelDec
    have hct : (modelCt k iv pt).length = pt.length := by simp [modelCt]
    have htg : (modelTag k iv (modelCt k iv pt)).length = 16 := by simp [modelTag]
    have hlen : (modelCt k iv pt ++ modelTag k iv (modelCt k iv pt)).length = pt.length + 16 := by
      simp [hct, htg]
    rw [if_pos (by omega)]
    have hsub : (modelCt k iv pt ++ modelTag k iv (modelCt k iv pt)).length - 16
        = (modelCt k iv pt).length := by omega
    have hun : modelUnmask k iv (modelCt k iv pt) = pt := by
      unfold modelUnmask modelCt
      rw [List.map_map]
      have hm : modelMask k iv < 256 := Nat.mod_lt _ (by omega)
      have h4 : pt.map ((fun b => (b + 256 - modelMask k iv) % 256) ∘
          (fun b => (b + modelMask k iv) % 256)) = pt.map id := by
        apply List.map_congr_left
        intro b hb
        have := h b hb
        simp only [Function.comp_apply, id_eq]
        omega
      rw [h4, List.map_id]
    rw [hsub, List.take_left, List.drop_left, if_pos rfl, hun]

end SBF

namespace SBF.CryptoManager

/-! ## Seed phrase generation (CryptoManager.generateSeedPhrase) -/

/-- The fixed wordlist from the source (32 entries; `дыня`, `ежевика` and
`земляника` each appear twice, as in the source). -/
def words : List String :=
  ["абрикос", "банан", "вишня", "груша", "дыня", "ежевика", "жёлудь", "земляника",
   "инжир", "йогурт", "каштан", "лимон", "манго", "нектарин", "орех", "персик",
   "рябина", "слива", "тыква", "урюк", "финик", "хурма", "черешня", "яблоко",
   "апельсин", "брусника", "виноград", "грейпфрут", "дыня", "ежевика", "жимолость",
   "земляника"]

/-- `selected.join(' ')`. -/
def joinSpace : List String → String
  | [] => ""
  | [w] => w
  | w :: ws => w ++ " " ++ joinSpace ws

/-- `generateSeedPhrase()` with the 12 random indices
(`Math.floor(Math.random() * words.length)`, each uniform on `[0, 32)`)
passed in as `idx`. -/
def generateSeedPhrase (idx : Fin 12 → Fin 32) : String :=
  joinSpace ((List.finRange 12).map fun i => words.getD (idx i).val "")

/-- Split a character list at spaces (the reading of "space-separated
tokens", i.e. `String.prototype.split(' ')`). -/
def splitSpace : List Char → List (List Char)
  | [] => [[]]
  | c :: cs =>
    if c = ' ' then [] :: splitSpace cs
    else
      match splitSpace cs with
      | t :: ts => (c :: t) :: ts
      | [] => [[c]]

/-- The space-separated tokens of a string. -/
def tokens (s : String) : List String :=
  (splitSpace s.data).map String.mk

/-! ## Key derivation (CryptoManager.deriveKeyFromSeed) -/

/-- The PBKDF2 primitive (`crypto.subtle.deriveBits`), an external
collaborator: a pure function of password bytes, salt bytes, iteration
count, hash name and output bit length, returning `bits / 8` bytes (the
purity models the determinism WebCrypto guarantees for PBKDF2). -/
structure KDF where
  deriveBits : List Nat → List Nat → Nat → String → Nat → List Nat
  length_eq : ∀ pw salt iters hash bits,
    (deriveBits pw salt iters hash bits).length = bits / 8
  lt : ∀ pw salt iters hash bits, ∀ b ∈ deriveBits pw salt iters hash bits, b < 256

/-- `deriveKeyFromSeed(seedPhrase)`: PBKDF2 over the UTF-8 phrase with the
fixed salt `sb_finance_salt_2024`, 100000 iterations, SHA-256, 256 bits,
then base64. -/
def deriveKeyFromSeed (K : KDF) (seedPhrase : String) : String :=
  arrayBufferToBase64
    (K.deriveBits (SBF.stringToUtf8 seedPhrase) (SBF.stringToUtf8 "sb_finance_salt_2024")
      100000 "SHA-256" 256)

end SBF.CryptoManager

namespace SBF

/-- A concrete `KDF` instance; exists only to inhabit the contract and
evaluate witnesses. -/
def modelKDF : CryptoManager.KDF where
  deriveBits := fun pw salt iters _ bits =>
    (List.range (bits / 8)).map fun i => (pw.sum + salt.sum * 3 + iters + i) % 256
  length_eq := by intro pw salt iters hash bits; simp
  lt := by
    intro pw salt iters hash bits b hb
    rcases List.mem_map.mp hb with ⟨a, _, rfl⟩
    exact Nat.mod_lt _ (by omega)

end SBF

namespace SBF.EncryptionStorage

/-! ## Key storage (EncryptionStorage over localStorage)

`localStorage` is an external string-keyed store of which the source uses
exactly the two keys `encryption_key` and `seed_phrase`; it is modelled as
a record with those two optional slots (`none` = key absent, so
`getItem` = null). -/

structure Store where
  encryption_key : Option String
  seed_phrase : Option String
deriving DecidableEq

/-- `getOrCreateKey()` with the freshly generated key (the value
`cryptoManager.generateKey()` would produce) passed in as `fresh`.
Mirrors `let key = getItem(..); if (!key) { key = generate; setItem(..) }`:
the JS `!key` is true both for `null` and for the empty string. -/
def getOrCreateKey (fresh : String) (st : Store) : String × Store :=
  match st.encryption_key with
  | some key =>
    if key = "" then (fresh, { st with encryption_key := some fresh })
    else (key, st)
  | none => (fresh, { st with encryption_key := some fresh })

/-- `saveKey(key)`. -/
def saveKey (key : String) (st : Store) : Store :=
  { st with encryption_key := some key }

/-- `clearKey()`: removes both the key and the seed phrase. -/
def clearKey (_ : Store) : Store :=
  { encryption_key := none, seed_phrase := none }

/-- `saveSeedPhrase(seedPhrase)`. -/
def saveSeedPhrase (p : String) (st : Store) : Store :=
  { st with seed_phrase := some p }

/-- `getSeedPhrase()`. -/
def getSeedPhrase (st : Store) : Option String :=
  st.seed_phrase

/-- `hasKey()`: `getItem('encryption_key') !== null`. -/
def hasKey (st : Store) : Bool :=
  st.encryption_key.isSome

end SBF.EncryptionStorage

namespace SBF

/-! ## JSON (the host's `JSON.parse` / `JSON.stringify`)

The interception layer and `encryptObject` / `decryptObject` depend on the
host's JSON support, modelled here by a small AST, a parser and a printer.
Numbers keep their source lexeme (claims never compare numeric values, and
the transport envelope contains only booleans and strings). -/

inductive Json where
  | null
  | bool (b : Bool)
  | num (lexeme : List Char)
  | str (s : String)
  | arr (elems : List Json)
  | obj (fields : List (String × Json))

def jsonWs (c : Char) : Bool :=
  c == ' ' || c == '\t' || c == '\n' || c == '\r'

def skipWs (l : List Char) : List Char :=
  l.dropWhile jsonWs

def hexVal (c : Char) : Option Nat :=
  if '0' ≤ c ∧ c ≤ '9' then some (c.toNat - 48)
  else if 'a' ≤ c ∧ c ≤ 'f' then some (c.toNat - 87)
  else if 'A' ≤ c ∧ c ≤ 'F' then some (c.toNat - 55)
  else none

/-- Parse the body of a JSON string literal (after the opening quote),
returning the decoded characters and the input after the closing quote.
JS strings may contain unpaired surrogates, which have no Lean `Char`;
they are modelled as U+FFFD (no claim depends on them). -/
def parseStringBody : Nat → List Char → Option (List Char × List Char)
  | 0, _ => none
  | _, [] => none
  | fuel + 1, c :: rest =>
    if c = '"' then some ([], rest)
    else if c = '\\' then
      match rest with
      | [] => none
      | e :: rest2 =>
        if e = '"' ∨ e = '\\' ∨ e = '/' then
          (parseStringBody fuel rest2).map fun p => (e :: p.1, p.2)
        else if e = 'b' then (parseStringBody fuel rest2).map fun p => (Char.ofNat 8 :: p.1, p.2)
        else if e = 'f' then (parseStringBody fuel rest2).map fun p => (Char.ofNat 12 :: p.1, p.2)
        else if e = 'n' then (parseStringBody fuel rest2).map fun p => (Char.ofNat 10 :: p.1, p.2)
        else if e = 'r' then (parseStringBody fuel rest2).map fun p => (Char.ofNat 13 :: p.1, p.2)
        else if e = 't' then (parseStringBody fuel rest2).map fun p => (Char.ofNat 9 :: p.1, p.2)
        else if e = 'u' then
          match rest2 with
          | h1 :: h2 :: h3 :: h4 :: rest3 =>
            match hexVal h1, hexVal h2, hexVal h3, hexVal h4 with
            | some v1, some v2, some v3, some v4 =>
              let v := v1 * 4096 + v2 * 256 + v3 * 16 + v4
              if 0xD800 ≤ v ∧ v < 0xDC00 then
                match rest3 with
                | '\\' :: 'u' :: g1 :: g2 :: g3 :: g4 :: rest4 =>
                  match hexVal g1, hexVal g2, hexVal g3, hexVal g4 with
                  | some w1, some w2, some w3, some w4 =>
                    let w := w1 * 4096 + w2 * 256 + w3 * 16 + w4
                    if 0xDC00 ≤ w ∧ w < 0xE000 then
                      (parseStringBody fuel rest4).map fun p =>
                        (Char.ofNat (0x10000 + (v - 0xD800) * 1024 + (w - 0xDC00)) :: p.1, p.2)
                    else (parseStringBody fuel rest3).map fun p => (replChar :: p.1, p.2)
                  | _, _, _, _ => (parseStringBody fuel rest3).map fun p => (replChar :: p.1, p.2)
                | _ => (parseStringBody fuel rest3).map fun p => (replChar :: p.1, p.2)
              else if 0xDC00 ≤ v ∧ v < 0xE000 then
                (parseStringBody fuel rest3).map fun p => (replChar :: p.1, p.2)
              else (parseStringBody fuel rest3).map fun p => (Char.ofNat v :: p.1, p.2)
            | _, _, _, _ => none
          | _ => none
        else none
    else if c.toNat < 0x20 then none
    else (parseStringBody fuel rest).map fun p => (c :: p.1, p.2)

/-- Lex the fraction part `(. [0-9]+)?`. -/
def lexFrac (l : List Char) : Option (List Char × List Char) :=
  match l with
  | '.' :: r =>
    let ds := r.takeWhile Char.isDigit
    if ds.isEmpty then none else some ('.' :: ds, r.dropWhile Char.isDigit)
  | _ => some ([], l)

/-- Lex the exponent part `([eE] [+-]? [0-9]+)?`. -/
def lexExp (l : List Char) : Option (List Char × List Char) :=
  match l with
  | e :: r =>
    if e = 'e' ∨ e = 'E' then
      let sg : List Char × List Char :=
        match r with
        | '+' :: rr => (['+'], rr)
        | '-' :: rr => (['-'], rr)
        | _ => ([], r)
      let ds := sg.2.takeWhile Char.isDigit
      if ds.isEmpty then none else some (e :: (sg.1 ++ ds), sg.2.dropWhile Char.isDigit)
    else some ([], l)
  | [] => some ([], [])

/-- Lex a JSON number: `-? (0 | [1-9][0-9]*) (. [0-9]+)? ([eE][+-]?[0-9]+)?`. -/
def lexNumber (l : List Char) : Option (List Char × List Char) :=
  let sn : List Char × List Char :=
    match l with
    | '-' :: r => (['-'], r)
    | _ => ([], l)
  let ip := sn.2.takeWhile Char.isDigit
  let l2 := sn.2.dropWhile Char.isDigit
  if ip.isEmpty then none
  else if 2 ≤ ip.length ∧ ip.headD 'x' = '0' then none
  else
    match lexFrac l2 with
    | some (fp, l3) =>
      match lexExp l3 with
      | some (ep, l4) => some (sn.1 ++ ip ++ fp ++ ep, l4)
      | none => none
    | none => none

/-- Match a literal keyword (`ull`, `rue`, `alse`). -/
def expectLit : List Char → List Char → Option (List Char)
  | [], l => some l
  | p :: ps, c :: cs => if c = p then expectLit ps cs else none
  | _ :: _, [] => none

mutual

/-- Parse one JSON value.  The fuel only bounds the mutual recursion; each
recursive descent consumes input, so the fuel chosen in `parseJson` is
always sufficient. -/
def parseValue : Nat → List Char → Option (Json × List Char)
  | 0, _ => none
  | fuel + 1, l =>
    match skipWs l with
    | [] => none
    | c :: rest =>
      if c = 'n' then (expectLit ['u', 'l', 'l'] rest).map fun r => (Json.null, r)
      else if c = 't' then (expectLit ['r', 'u', 'e'] rest).map fun r => (Json.bool true, r)
      else if c = 'f' then (expectLit ['a', 'l', 's', 'e'] rest).map fun r => (Json.bool false, r)
      else if c = '"' then
        (parseStringBody (rest.length + 1) rest).map fun p => (Json.str (String.mk p.1), p.2)
      else if c = '\x7b' then
        match skipWs rest with
        | '\x7d' :: r2 => some (Json.obj [], r2)
        | _ => (parseMembers fuel (skipWs rest)).map fun p => (Json.obj p.1, p.2)
      else if c = '[' then
        match skipWs rest with
        | ']' :: r2 => some (Json.arr [], r2)
        | _ => (parseElems fuel (skipWs rest)).map fun p => (Json.arr p.1, p.2)
      else
        (lexNumber (c :: rest)).map fun p => (Json.num p.1, p.2)

/-- Parse `"key": value (, "key": value)* }` (the inside of a non-empty
object). -/
def parseMembers : Nat → List Char → Option (List (String × Json) × List Char)
  | 0, _ => none
  | fuel + 1, l =>
    match skipWs l with
    | '"' :: rest =>
      match parseStringBody (rest.length + 1) rest with
      | some (k, r1) =>
        match skipWs r1 with
        | ':' :: r2 =>
          match parseValue fuel r2 with
          | some (v, r3) =>
            match skipWs r3 with
            | ',' :: r4 => (parseMembers fuel r4).map fun p => ((String.mk k, v) :: p.1, p.2)
            | '\x7d' :: r4 => some ([(String.mk k, v)], r4)
            | _ => none
          | none => none
        | _ => none
      | none => none
    | _ => none

/-- Parse `value (, value)* ]` (the inside of a non-empty array). -/
def parseElems : Nat → List Char → Option (List Json × List Char)
  | 0, _ => none
  | fuel + 1, l =>
    match parseValue fuel l with
    | some (v, r1) =>
      match skipWs r1 with
      | ',' :: r2 => (parseElems fuel r2).map fun p => (v :: p.1, p.2)
      | ']' :: r2 => some ([v], r2)
      | _ => none
    | none => none

end

/-- `JSON.parse(s)`: `none` models the `SyntaxError` throw. -/
def parseJson (s : String) : Option Json :=
  match parseValue (2 * s.data.length + 2) s.data with
  | some (j, r) => if skipWs r = [] then some j else none
  | none => none

def hexDigit (n : Nat) : Char :=
  "0123456789abcdef".data.getD n '0'

/-- `JSON.stringify` escaping for one character of a string value. -/
def escapeJsonChar (c : Char) : List Char :=
  if c = '"' then ['\\', '"']
  else if c = '\\' then ['\\', '\\']
  else if c.toNat = 8 then ['\\', 'b']
  else if c.toNat = 9 then ['\\', 't']
  else if c.toNat = 10 then ['\\', 'n']
  else if c.toNat = 12 then ['\\', 'f']
  else if c.toNat = 13 then ['\\', 'r']
  else if c.toNat < 0x20 then ['\\', 'u', '0', '0', hexDigit (c.toNat / 16), hexDigit (c.toNat % 16)]
  else [c]

def quoteJson (s : String) : List Char :=
  '"' :: s.data.flatMap escapeJsonChar ++ ['"']

mutual

/-- `JSON.stringify` (no spacing, insertion order — as the host produces). -/
def stringifyJson : Json → List Char
  | Json.null => ['n', 'u', 'l', 'l']
  | Json.bool true => ['t', 'r', 'u', 'e']
  | Json.bool false => ['f', 'a', 'l', 's', 'e']
  | Json.num lx => lx
  | Json.str s => quoteJson s
  | Json.arr es => '[' :: stringifyElems es ++ [']']
  | Json.obj fs => '\x7b' :: stringifyFields fs ++ ['\x7d']

def stringifyElems : List Json → List Char
  | [] => []
  | [e] => stringifyJson e
  | e :: es => stringifyJson e ++ ',' :: stringifyElems es

def stringifyFields : List (String × Json) → List Char
  | [] => []
  | [(k, v)] => quoteJson k ++ ':' :: stringifyJson v
  | (k, v) :: fs => quoteJson k ++ ':' :: stringifyJson v ++ ',' :: stringifyFields fs

end

/-- Whether a number lexeme denotes zero (all mantissa digits `0`). -/
def numIsZero (lx : List Char) : Bool :=
  (lx.takeWhile fun c => c != 'e' && c != 'E').all fun c => c == '0' || c == '-' || c == '.'

/-- JS truthiness of a property-access result (`none` = `undefined`). -/
def truthy : Option Json → Bool
  | none => false
  | some Json.null => false
  | some (Json.bool b) => b
  | some (Json.num lx) => !numIsZero lx
  | some (Json.str s) => !s.isEmpty
  | some (Json.arr _) => true
  | some (Json.obj _) => true

/-- Property access `j.key` (`none` = `undefined`; for duplicate keys
`JSON.parse` keeps the last occurrence). -/
def getField (j : Json) (key : String) : Option Json :=
  match j with
  | Json.obj fs => (fs.reverse.find? fun kv => decide (kv.1 = key)).map Prod.snd
  | _ => none

/-- JS string coercion, as `atob` applies to a non-string argument (only
the `str` case is exercised by any claim). -/
def jsToString : Option Json → String
  | some (Json.str s) => s
  | some (Json.num lx) => String.mk lx
  | some (Json.bool true) => "true"
  | some (Json.bool false) => "false"
  | some Json.null => "null"
  | none => "undefined"
  | some (Json.arr _) => ""
  | some (Json.obj _) => "[object Object]"

end SBF

namespace SBF.CryptoManager

/-- The two distinct failures `decryptObject` can raise: the `Error`
`decrypt` throws on any decryption failure, and the `SyntaxError`
`JSON.parse` throws on non-JSON plaintext (the source catches neither in
`decryptObject`, so they propagate as distinct exception types). -/
inductive CryptoErr where
  | decryptionFailed
  | malformedPayload
deriving DecidableEq

/-- `encryptObject(obj, base64Key)`: `JSON.stringify` then `encrypt`. -/
def encryptObject (A : SBF.AEAD) (obj : SBF.Json) (base64Key : String) (iv : List Nat) :
    Option String :=
  encrypt A (String.mk (SBF.stringifyJson obj)) base64Key iv

/-- `decryptObject(encryptedBase64, base64Key)`: `decrypt` then
`JSON.parse`. -/
def decryptObject (A : SBF.AEAD) (encryptedBase64 : String) (base64Key : String) :
    Except CryptoErr SBF.Json :=
  match decrypt A encryptedBase64 base64Key with
  | none => Except.error CryptoErr.decryptionFailed
  | some json =>
    match SBF.parseJson json with
    | none => Except.error CryptoErr.malformedPayload
    | some j => Except.ok j

end SBF.CryptoManager

namespace SBF.EncryptedFetch

/-! ## The interception layer (EncryptedFetch.fetch)

The underlying network transport is an external collaborator; it is
modelled as a pure function from request options to a response.  A JS
`Response` is modelled with the fields the source touches, plus the
`bodyUsed` flag that `response.json()` sets: reading the body of a
`Response` whose body was already consumed rejects, which is what
`bodyUsed = true` records. -/

inductive BodyVal where
  | undef
  | str (s : String)
  | other
deriving DecidableEq

structure Options where
  body : BodyVal
  headers : Option (List (String × String))
deriving DecidableEq

structure NetResponse where
  status : Nat
  statusText : String
  headers : List (String × String)
  body : String
  bodyUsed : Bool
deriving DecidableEq

/-- How a call of `EncryptedFetch.fetch` can reject: `response.json()` on
a consumed body, `response.json()` on a non-JSON body, the `encrypt`
error, or a `decryptObject` failure. -/
inductive FetchErr where
  | bodyConsumed
  | badJson
  | encryptionFailed
  | crypto (e : SBF.CryptoManager.CryptoErr)
deriving DecidableEq

/-- `options.headers['Content-Type'] = v` (sets or overwrites the exact
property). -/
def setHeader (hs : List (String × String)) (k v : String) : List (String × String) :=
  (hs.filter fun kv => !(decide (kv.1 = k))) ++ [(k, v)]

/-- `JSON.stringify({encrypted: true, data: encrypted})`. -/
def envelopeBody (enc : String) : String :=
  String.mk (SBF.stringifyJson (SBF.Json.obj
    [("encrypted", SBF.Json.bool true), ("data", SBF.Json.str enc)]))

/-- The request-rewriting half of `fetch(url, options)` (everything before
the transport call, given the already-resolved key): a truthy string body
is parsed as JSON and encrypted as an object, or — if parsing or object
encryption throws — encrypted as text in the catch block; the body is
replaced by the transport envelope and the content type forced to JSON.
Any other body is left untouched. -/
def transformRequest (A : SBF.AEAD) (key : String) (iv : List Nat) (opts : Options) :
    Except FetchErr Options :=
  match opts.body with
  | BodyVal.str s =>
    if s.isEmpty then Except.ok opts
    else
      let enc : Option String :=
        match SBF.parseJson s with
        | some json =>
          match SBF.CryptoManager.encryptObject A json key iv with
          | some e => some e
          | none => SBF.CryptoManager.encrypt A s key iv
        | none => SBF.CryptoManager.encrypt A s key iv
      match enc with
      | some e =>
        Except.ok
          { body := BodyVal.str (envelopeBody e),
            headers := some (setHeader (opts.headers.getD []) "Content-Type" "application/json") }
      | none => Except.error FetchErr.encryptionFailed
  | _ => Except.ok opts

/-- ASCII lowercase (header names are ASCII). -/
def lowerChar (c : Char) : Char :=
  if 'A' ≤ c ∧ c ≤ 'Z' then Char.ofNat (c.toNat + 32) else c

/-- `response.headers.get('content-type')?.includes('application/json')`
(header lookup is case-insensitive; a missing header gives `undefined`,
which is falsy). -/
def contentTypeJson (resp : NetResponse) : Bool :=
  match resp.headers.find? fun kv => decide (kv.1.data.map lowerChar = "content-type".data) with
  | some kv => decide (List.IsInfix ("application/json".data) kv.2.data)
  | none => false

/-- The response half of `fetch`: on a JSON content type the body is
consumed by `response.json()`; a transport-form body is decrypted into a
fresh `Response` (same status/statusText/headers); any other JSON body
falls through to `return response` — the same object whose body was just
consumed. -/
def processResponse (A : SBF.AEAD) (key : String) (resp : NetResponse) :
    Except FetchErr NetResponse :=
  if contentTypeJson resp then
    if resp.bodyUsed then Except.error FetchErr.bodyConsumed
    else
      match SBF.parseJson resp.body with
      | none => Except.error FetchErr.badJson
      | some data =>
        if SBF.truthy (SBF.getField data "encrypted") &&
            SBF.truthy (SBF.getField data "data") then
          match SBF.CryptoManager.decryptObject A
              (SBF.jsToString (SBF.getField data "data")) key with
          | Except.error e => Except.error (FetchErr.crypto e)
          | Except.ok decrypted =>
            Except.ok
              { status := resp.status, statusText := resp.statusText,
                headers := resp.headers,
                body := String.mk (SBF.stringifyJson decrypted), bodyUsed := false }
        else Except.ok { resp with bodyUsed := true }
  else Except.ok resp

/-- `EncryptedFetch.fetch(url, options)`, with the external inputs passed
explicitly: the AEAD primitive, the fresh key `generateKey` would return
if the store is empty, the request IV, and the transport (a pure function
from the dispatched options to the response; the URL is absorbed into
it).  Returns the call's outcome and the updated key store. -/
def fetch (A : SBF.AEAD) (fresh : String) (iv : List Nat)
    (transport : Options → NetResponse) (enabled : Bool)
    (st : SBF.EncryptionStorage.Store) (opts : Options) :
    Except FetchErr NetResponse × SBF.EncryptionStorage.Store :=
  if enabled then
    let r := SBF.EncryptionStorage.getOrCreateKey fresh st
    match transformRequest A r.1 iv opts with
    | Except.error e => (Except.error e, r.2)
    | Except.ok opts2 => (processResponse A r.1 (transport opts2), r.2)
  else (Except.ok (transport opts), st)

end SBF.EncryptedFetch

/-!
# Theorems

Helper lemmas first, then one theorem per claim (with witnesses or
counterexamples as separate closed theorems).
-/

namespace SBF

theorem encB_lt (l : List Nat) (h : ∀ b ∈ l, b < 256) :
    ∀ s ∈ encB l, s < 64 := by
  induction l using encB.induct with
  | case1 a b c rest ih =>
    have ha := h a (by simp)
    have hb := h b (by simp)
    have hc := h c (by simp)
    intro s hs
    simp only [encB, List.mem_cons] at hs
    rcases hs with h1 | h1 | h1 | h1 | h1
    · omega
    · omega
    · omega
    · omega
    · exact ih (fun x hx => h x (by simp [hx])) s h1
  | case2 a b =>
    have ha := h a (by simp)
    have hb := h b (by simp)
    intro s hs
    simp only [encB, List.mem_cons, List.not_mem_nil, or_false] at hs
    rcases hs with h1 | h1 <;> omega
  | case3 a =>
    have ha := h a (by simp)
    intro s hs
    simp only [encB, List.mem_cons, List.not_mem_nil, or_false] at hs
    rcases hs with h1 | h1 <;> omega
  | case4 => intro s hs; simp [encB] at hs

theorem decB_encB (l : List Nat) (h : ∀ b ∈ l, b < 256) :
    decB (encB l) = l := by
  induction l using encB.induct with
  | case1 a b c rest ih =>
    have ha := h a (by simp)
    have hb := h b (by simp)
    have hc := h c (by simp)
    simp only [encB, decB, List.cons.injEq]
    refine ⟨by omega, by omega, by omega, ih (fun x hx => h x (by simp [hx]))⟩
  | case2 a b =>
    have ha := h a (by simp)
    have hb := h b (by simp)
    simp only [encB, decB, List.cons.injEq, and_true]
    constructor <;> omega
  | case3 a =>
    have ha := h a (by simp)
    simp only [encB, decB, List.cons.injEq, and_true]
    omega
  | case4 => rfl

theorem fromB64Char_toB64Char : ∀ s, s < 64 → fromB64Char (toB64Char s) = s := by
  decide

theorem toB64Char_ne_pad : ∀ s, s < 64 → toB64Char s != '=' := by
  decide

theorem b64_roundtrip (l : List Nat) (h : ∀ b ∈ l, b < 256) :
    CryptoManager.base64ToArrayBuffer (CryptoManager.arrayBufferToBase64 l) = l := by
  have hlt := encB_lt l h
  unfold CryptoManager.base64ToArrayBuffer CryptoManager.arrayBufferToBase64
  have hdata :
      (String.mk ((encB l).map toB64Char ++ padOf l.length)).data
        = (encB l).map toB64Char ++ padOf l.length := rfl
  rw [hdata, List.filter_append]
  have h1 : ((encB l).map toB64Char).filter (fun c => c != '=') = (encB l).map toB64Char := by
    apply List.filter_eq_self.mpr
    intro c hc
    rcases List.mem_map.mp hc with ⟨s, hs, rfl⟩
    exact toB64Char_ne_pad s (hlt s hs)
  have h2 : (padOf l.length).filter (fun c => c != '=') = [] := by
    have h3 : l.length % 3 = 0 ∨ l.length % 3 = 1 ∨ l.length % 3 = 2 := by omega
    rcases h3 with h3 | h3 | h3 <;> simp [padOf, h3]
  rw [h1, h2, List.append_nil, List.map_map]
  have h4 : (encB l).map (fromB64Char ∘ toB64Char) = (encB l).map id := by
    apply List.map_congr_left
    intro s hs
    exact fromB64Char_toB64Char s (hlt s hs)
  rw [h4, List.map_id]
  exact decB_encB l h

theorem utf8Step_length (b0 : Nat) (rest : List Nat) :
    (utf8Step b0 rest).2.length ≤ rest.length := by
  unfold utf8Step
  repeat' split
  all_goals simp
  all_goals omega

theorem utf8DecodeAux_fuel (fuel1 : Nat) :
    ∀ (fuel2 : Nat) (l : List Nat), l.length ≤ fuel1 → l.length ≤ fuel2 →
      utf8DecodeAux fuel1 l = utf8DecodeAux fuel2 l := by
  induction fuel1 with
  | zero =>
    intro fuel2 l h1 _
    have : l = [] := List.length_eq_zero.mp (by omega)
    subst this
    cases fuel2 <;> rfl
  | succ f1 ih =>
    intro fuel2 l h1 h2
    match l with
    | [] => cases fuel2 <;> rfl
    | b0 :: rest =>
      match fuel2 with
      | f2 + 1 =>
        simp only [utf8DecodeAux]
        congr 1
        have hs := utf8Step_length b0 rest
        simp only [List.length_cons] at h1 h2
        exact ih f2 (utf8Step b0 rest).2 (by omega) (by omega)

theorem utf8Decode_cons_step (b0 : Nat) (rest : List Nat) (c : Char) (r : List Nat)
    (hstep : utf8Step b0 rest = (c, r)) :
    utf8Decode (b0 :: rest) = c :: utf8Decode r := by
  unfold utf8Decode
  simp only [List.length_cons, utf8DecodeAux, hstep]
  congr 1
  have hlen := utf8Step_length b0 rest
  rw [hstep] at hlen
  exact utf8DecodeAux_fuel rest.length r.length r hlen (le_refl _)

theorem char_range (c : Char) :
    c.toNat < 0xD800 ∨ (0xDFFF < c.toNat ∧ c.toNat < 0x110000) := by
  have h := c.valid
  simp only [UInt32.isValidChar, Nat.isValidChar] at h
  exact h

theorem utf8EncodeChar_lt (c : Char) : ∀ b ∈ utf8EncodeChar c, b < 256 := by
  have h := char_range c
  intro b hb
  unfold utf8EncodeChar at hb
  split at hb
  · simp at hb; omega
  · split at hb
    · simp at hb; omega
    · split at hb
      · simp at hb; omega
      · simp at hb; omega

theorem utf8Step_enc1 (v : Nat) (r : List Nat) (h : v < 0x80) :
    utf8Step v r = (Char.ofNat v, r) := by
  unfold utf8Step
  rw [if_pos h]

theorem utf8Step_enc2 (v : Nat) (r : List Nat) (h1 : 0x80 ≤ v) (h2 : v < 0x800) :
    utf8Step (0xC0 + v / 64) ((0x80 + v % 64) :: r) = (Char.ofNat v, r) := by
  unfold utf8Step
  rw [if_neg (by omega), if_pos (by omega)]
  dsimp only
  rw [if_pos (by omega)]
  have hv : (0xC0 + v / 64 - 0xC0) * 64 + (0x80 + v % 64 - 0x80) = v := by omega
  rw [hv]

theorem utf8Step_enc3 (v : Nat) (r : List Nat) (h1 : 0x800 ≤ v) (h2 : v < 0x10000)
    (h3 : v < 0xD800 ∨ 0xDFFF < v) :
    utf8Step (0xE0 + v / 4096) ((0x80 + v / 64 % 64) :: (0x80 + v % 64) :: r) =
      (Char.ofNat v, r) := by
  unfold utf8Step
  rw [if_neg (by omega), if_neg (by omega), if_pos (by omega)]
  dsimp only
  rw [if_pos (by omega)]
  have hv : (0xE0 + v / 4096 - 0xE0) * 4096 + (0x80 + v / 64 % 64 - 0x80) * 64 +
      (0x80 + v % 64 - 0x80) = v := by omega
  rw [hv, if_pos ⟨h1, h3⟩]

theorem utf8Step_enc4 (v : Nat) (r : List Nat) (h1 : 0x10000 ≤ v) (h2 : v < 0x110000) :
    utf8Step (0xF0 + v / 262144)
      ((0x80 + v / 4096 % 64) :: (0x80 + v / 64 % 64) :: (0x80 + v % 64) :: r) =
      (Char.ofNat v, r) := by
  unfold utf8Step
  rw [if_neg (by omega), if_neg (by omega), if_neg (by omega), if_pos (by omega)]
  dsimp only
  rw [if_pos (by omega)]
  have hv : (0xF0 + v / 262144 - 0xF0) * 262144 + (0x80 + v / 4096 % 64 - 0x80) * 4096 +
      (0x80 + v / 64 % 64 - 0x80) * 64 + (0x80 + v % 64 - 0x80) = v := by omega
  rw [hv, if_pos ⟨h1, h2⟩]

theorem utf8Decode_encodeChar (c : Char) (r : List Nat) :
    utf8Decode (utf8EncodeChar c ++ r) = c :: utf8Decode r := by
  have h := char_range c
  by_cases h1 : c.toNat < 0x80
  · rw [utf8EncodeChar, if_pos h1, List.cons_append, List.nil_append]
    exact utf8Decode_cons_step _ _ _ _
      (by rw [utf8Step_enc1 c.toNat r h1, Char.ofNat_toNat])
  · by_cases h2 : c.toNat < 0x800
    · rw [utf8EncodeChar, if_neg h1, if_pos h2, List.cons_append, List.cons_append,
        List.nil_append]
      exact utf8Decode_cons_step _ _ _ _
        (by rw [utf8Step_enc2 c.toNat r (by omega) h2, Char.ofNat_toNat])
    · by_cases h3 : c.toNat < 0x10000
      · rw [utf8EncodeChar, if_neg h1, if_neg h2, if_pos h3, List.cons_append,
          List.cons_append, List.cons_append, List.nil_append]
        exact utf8Decode_cons_step _ _ _ _
          (by rw [utf8Step_enc3 c.toNat r (by omega) h3 (by omega), Char.ofNat_toNat])
      · rw [utf8EncodeChar, if_neg h1, if_neg h2, if_neg h3, List.cons_append,
          List.cons_append, List.cons_append, List.cons_append, List.nil_append]
        exact utf8Decode_cons_step _ _ _ _
          (by rw [utf8Step_enc4 c.toNat r (by omega) (by omega), Char.ofNat_toNat])

theorem utf8Decode_encode_append (cs : List Char) (r : List Nat) :
    utf8Decode (cs.flatMap utf8EncodeChar ++ r) = cs ++ utf8Decode r := by
  induction cs with
  | nil => simp
  | cons c cs ih =>
    rw [List.flatMap_cons, List.append_assoc, utf8Decode_encodeChar, ih]
    rfl

theorem utf8_roundtrip (s : String) : utf8DecodeString (stringToUtf8 s) = s := by
  have h := utf8Decode_encode_append s.data []
  rw [List.append_nil] at h
  unfold utf8DecodeString stringToUtf8
  rw [h]
  simp [utf8Decode, utf8DecodeAux]

theorem stringToUtf8_lt (s : String) : ∀ b ∈ stringToUtf8 s, b < 256 := by
  intro b hb
  unfold stringToUtf8 at hb
  rcases List.mem_flatMap.mp hb with ⟨c, _, hc⟩
  exact utf8EncodeChar_lt c b hc

theorem modelMask_lt (k iv : List Nat) : modelMask k iv < 256 :=
  Nat.mod_lt _ (by omega)

theorem modelUnmask_modelCt (k iv pt : List Nat) (h : ∀ b ∈ pt, b < 256) :
    modelUnmask k iv (modelCt k iv pt) = pt := by
  unfold modelUnmask modelCt
  rw [List.map_map]
  have hm := modelMask_lt k iv
  have h4 : pt.map ((fun b => (b + 256 - modelMask k iv) % 256) ∘
      (fun b => (b + modelMask k iv) % 256)) = pt.map id := by
    apply List.map_congr_left
    intro b hb
    have := h b hb
    simp only [Function.comp_apply, id_eq]
    omega
  rw [h4, List.map_id]

end SBF

namespace SBF

theorem encOut_lt (A : AEAD) (k iv pt : List Nat) (h : ∀ b ∈ pt, b < 256) :
    ∀ b ∈ A.encOut k iv pt, b < 256 := by
  intro b hb
  unfold AEAD.encOut at hb
  rcases List.mem_append.mp hb with h1 | h1
  · exact A.ct_lt k iv pt h b h1
  · exact A.tag_lt k iv pt h b h1

theorem encOut_length (A : AEAD) (k iv pt : List Nat) :
    (A.encOut k iv pt).length = pt.length + 16 := by
  unfold AEAD.encOut
  rw [List.length_append, A.ct_length, A.tag_length]

theorem importKey_generateKey (kb : List Nat) (h32 : kb.length = 32)
    (hlt : ∀ b ∈ kb, b < 256) :
    CryptoManager.importKey (CryptoManager.generateKey kb) = some kb := by
  unfold CryptoManager.importKey CryptoManager.generateKey
  rw [b64_roundtrip kb hlt]
  rw [if_pos (by omega)]

/-- Claim C1: for every plaintext string `p` (including the empty string
and strings with embedded NUL or multibyte characters) and every key `k`
produced by `generateKey` (the base64 encoding of 32 random bytes),
`decrypt(encrypt(p, k), k)` returns `p`.  The IV ranges over every value
`generateIV` can produce (12 random bytes). -/
theorem c1_encrypt_decrypt_roundtrip (A : AEAD) (p : String) (kb iv : List Nat)
    (hk : kb.length = 32) (hkb : ∀ b ∈ kb, b < 256)
    (hiv : iv.length = 12) (hivb : ∀ b ∈ iv, b < 256) :
    (CryptoManager.encrypt A p (CryptoManager.generateKey kb) iv).bind
      (fun env => CryptoManager.decrypt A env (CryptoManager.generateKey kb)) = some p := by
  have himp := importKey_generateKey kb hk hkb
  have hall : ∀ b ∈ iv ++ A.encOut kb iv (stringToUtf8 p), b < 256 := by
    intro b hb
    rcases List.mem_append.mp hb with h1 | h1
    · exact hivb b h1
    · exact encOut_lt A kb iv (stringToUtf8 p) (stringToUtf8_lt p) b h1
  unfold CryptoManager.encrypt CryptoManager.decrypt
  rw [himp]
  dsimp only
  rw [Option.some_bind, b64_roundtrip _ hall]
  have hivl : CryptoManager.ivLength = iv.length := by rw [hiv]; rfl
  rw [hivl, List.take_left, List.drop_left]
  have hdec := A.dec_enc kb iv (stringToUtf8 p) (stringToUtf8_lt p)
  rw [show A.encOut kb iv (stringToUtf8 p)
        = A.ctPart kb iv (stringToUtf8 p) ++ A.tagPart kb iv (stringToUtf8 p) from rfl,
    hdec]
  dsimp only
  rw [utf8_roundtrip p]

/-- Witness for C1 at a concrete plaintext (with an embedded NUL and
multibyte characters), key and IV. -/
theorem c1_witness :
    ((List.range 32).length = 32 ∧ (∀ b ∈ List.range 32, b < 256) ∧
      (List.range 12).length = 12 ∧ (∀ b ∈ List.range 12, b < 256)) ∧
    (CryptoManager.encrypt modelAEAD "привет\x00мир€" (CryptoManager.generateKey (List.range 32))
        (List.range 12)).bind
      (fun env => CryptoManager.decrypt modelAEAD env (CryptoManager.generateKey (List.range 32)))
      = some "привет\x00мир€" :=
  ⟨⟨by decide, by decide, by decide, by decide⟩,
    c1_encrypt_decrypt_roundtrip modelAEAD "привет\x00мир€" (List.range 32) (List.range 12)
      (by decide) (by decide) (by decide) (by decide)⟩

end SBF

namespace SBF

/-- Claim C4: for every plaintext `p` and valid key, the envelope returned
by `encrypt(p, k)` decodes from base64 to a byte sequence of length
exactly `12 + (utf8ByteLength(p) + 16)`: the 12-byte IV followed by the
ciphertext with its 16-byte authentication tag appended
(`utf8ByteLength(p)` is `(stringToUtf8 p).length`). -/
theorem c4_envelope_length (A : AEAD) (p : String) (kb iv : List Nat)
    (hk : kb.length = 32) (hkb : ∀ b ∈ kb, b < 256)
    (hiv : iv.length = 12) (hivb : ∀ b ∈ iv, b < 256) :
    ∃ env, CryptoManager.encrypt A p (CryptoManager.generateKey kb) iv = some env ∧
      CryptoManager.base64ToArrayBuffer env
        = iv ++ (A.ctPart kb iv (stringToUtf8 p) ++ A.tagPart kb iv (stringToUtf8 p)) ∧
      (CryptoManager.base64ToArrayBuffer env).length = 12 + ((stringToUtf8 p).length + 16) ∧
      (CryptoManager.base64ToArrayBuffer env).take 12 = iv ∧
      (A.ctPart kb iv (stringToUtf8 p)).length = (stringToUtf8 p).length ∧
      (A.tagPart kb iv (stringToUtf8 p)).length = 16 := by
  have himp := importKey_generateKey kb hk hkb
  have hall : ∀ b ∈ iv ++ A.encOut kb iv (stringToUtf8 p), b < 256 := by
    intro b hb
    rcases List.mem_append.mp hb with h1 | h1
    · exact hivb b h1
    · exact encOut_lt A kb iv (stringToUtf8 p) (stringToUtf8_lt p) b h1
  have hdecode := b64_roundtrip _ hall
  refine ⟨CryptoManager.arrayBufferToBase64 (iv ++ A.encOut kb iv (stringToUtf8 p)),
    ?_, ?_, ?_, ?_, A.ct_length kb iv (stringToUtf8 p), A.tag_length kb iv (stringToUtf8 p)⟩
  · unfold CryptoManager.encrypt
    rw [himp]
  · rw [hdecode]
    rfl
  · rw [hdecode, List.length_append, hiv, encOut_length]
  · rw [hdecode, ← hiv, List.take_left]

/-- Witness for C4 at a concrete plaintext, key and IV. -/
theorem c4_witness :
    ((List.range 32).length = 32 ∧ (List.range 12).length = 12) ∧
    (∃ env,
      CryptoManager.encrypt modelAEAD "abc" (CryptoManager.generateKey (List.range 32))
          (List.range 12) = some env ∧
      CryptoManager.base64ToArrayBuffer env
        = List.range 12 ++ (modelAEAD.ctPart (List.range 32) (List.range 12) (stringToUtf8 "abc")
            ++ modelAEAD.tagPart (List.range 32) (List.range 12) (stringToUtf8 "abc")) ∧
      (CryptoManager.base64ToArrayBuffer env).length = 12 + ((stringToUtf8 "abc").length + 16) ∧
      (CryptoManager.base64ToArrayBuffer env).take 12 = List.range 12 ∧
      (modelAEAD.ctPart (List.range 32) (List.range 12) (stringToUtf8 "abc")).length
        = (stringToUtf8 "abc").length ∧
      (modelAEAD.tagPart (List.range 32) (List.range 12) (stringToUtf8 "abc")).length = 16) :=
  ⟨⟨by decide, by decide⟩,
    c4_envelope_length modelAEAD "abc" (List.range 32) (List.range 12)
      (by decide) (by decide) (by decide) (by decide)⟩

/-- Claim C9: the base64 framing helpers round-trip exactly:
`base64ToArrayBuffer(arrayBufferToBase64(b)) == b` for every byte
sequence `b`, including the empty buffer and buffers that are not valid
UTF-8. -/
theorem c9_base64_roundtrip (b : List Nat) (h : ∀ x ∈ b, x < 256) :
    CryptoManager.base64ToArrayBuffer (CryptoManager.arrayBufferToBase64 b) = b :=
  b64_roundtrip b h

/-- Witness for C9 at a concrete byte buffer (length 4, so padding is
exercised; `[255, 254]` prefixed makes it invalid UTF-8). -/
theorem c9_witness :
    (∀ x ∈ [255, 254, 0, 128], x < 256) ∧
    CryptoManager.base64ToArrayBuffer (CryptoManager.arrayBufferToBase64 [255, 254, 0, 128])
      = [255, 254, 0, 128] :=
  ⟨by decide, c9_base64_roundtrip [255, 254, 0, 128] (by decide)⟩

end SBF

namespace SBF

/-- Claim C5, counterexample: with the empty string stored under
`encryption_key` a key exists in the store (`hasKey` is true, since
`getItem` returns a non-null value), yet `getOrCreateKey` overwrites it
with the newly generated key, because the guard `if (!key)` treats the
empty string as absent. -/
theorem c5_counterexample :
    EncryptionStorage.hasKey ⟨some "", none⟩ = true ∧
    (EncryptionStorage.getOrCreateKey "RnJlc2hLZXlCYXNlNjQ=" ⟨some "", none⟩).2.encryption_key
      = some "RnJlc2hLZXlCYXNlNjQ=" ∧
    ("RnJlc2hLZXlCYXNlNjQ=" : String) ≠ "" :=
  ⟨rfl, rfl, by decide⟩

/-- Claim C5 (amended): calling `getOrCreateKey` twice without an
intervening `clearKey` returns the same encoded key both times, provided
the freshly generated key is a non-empty string (the base64 encoding of
32 bytes always is); and an existing *non-empty* key is never overwritten
(a stored empty string is treated as absent by the JS falsiness check and
is regenerated over). -/
theorem c5_get_or_create_key_idempotent (st : EncryptionStorage.Store) (f1 f2 : String)
    (h1 : f1 ≠ "") :
    ((EncryptionStorage.getOrCreateKey f2
        (EncryptionStorage.getOrCreateKey f1 st).2).1
      = (EncryptionStorage.getOrCreateKey f1 st).1) ∧
    (∀ k, st.encryption_key = some k → k ≠ "" →
      EncryptionStorage.getOrCreateKey f1 st = (k, st)) := by
  constructor
  · rcases hk : st.encryption_key with _ | k
    · simp [EncryptionStorage.getOrCreateKey, hk, h1]
    · by_cases hke : k = ""
      · simp [EncryptionStorage.getOrCreateKey, hk, hke, h1]
      · simp [EncryptionStorage.getOrCreateKey, hk, hke]
  · intro k hk hke
    simp [EncryptionStorage.getOrCreateKey, hk, hke]

/-- Witness for the amended C5 at a concrete store and fresh keys. -/
theorem c5_witness :
    ("QUFB" : String) ≠ "" ∧
    (EncryptionStorage.getOrCreateKey "QkJC"
        (EncryptionStorage.getOrCreateKey "QUFB" ⟨some "S2V5", none⟩).2).1
      = (EncryptionStorage.getOrCreateKey "QUFB" ⟨some "S2V5", none⟩).1 ∧
    EncryptionStorage.getOrCreateKey "QUFB" ⟨some "S2V5", none⟩
      = ("S2V5", ⟨some "S2V5", none⟩) :=
  ⟨by decide,
    (c5_get_or_create_key_idempotent ⟨some "S2V5", none⟩ "QUFB" "QkJC" (by decide)).1,
    (c5_get_or_create_key_idempotent ⟨some "S2V5", none⟩ "QUFB" "QkJC" (by decide)).2
      "S2V5" rfl (by decide)⟩

theorem splitSpace_no_space (w : List Char) (h : ∀ c ∈ w, ¬ c = ' ') :
    CryptoManager.splitSpace w = [w] := by
  induction w with
  | nil => rfl
  | cons c cs ih =>
    simp only [CryptoManager.splitSpace]
    rw [if_neg (h c (by simp)), ih (fun x hx => h x (by simp [hx]))]

theorem splitSpace_append (w r : List Char) (h : ∀ c ∈ w, ¬ c = ' ') :
    CryptoManager.splitSpace (w ++ ' ' :: r) = w :: CryptoManager.splitSpace r := by
  induction w with
  | nil =>
    simp [List.nil_append, CryptoManager.splitSpace]
  | cons c cs ih =>
    simp only [List.cons_append, CryptoManager.splitSpace, List.append_eq]
    rw [if_neg (h c (by simp)), ih (fun x hx => h x (by simp [hx]))]

theorem tokens_joinSpace (ws : List String) (hne : ws ≠ [])
    (hw : ∀ w ∈ ws, ∀ c ∈ w.data, ¬ c = ' ') :
    CryptoManager.tokens (CryptoManager.joinSpace ws) = ws := by
  induction ws with
  | nil => exact absurd rfl hne
  | cons w tail ih =>
    cases tail with
    | nil =>
      unfold CryptoManager.tokens CryptoManager.joinSpace
      rw [splitSpace_no_space w.data (hw w (by simp))]
      simp
    | cons w2 rest =>
      have hj : CryptoManager.joinSpace (w :: w2 :: rest)
          = w ++ " " ++ CryptoManager.joinSpace (w2 :: rest) := rfl
      unfold CryptoManager.tokens
      rw [hj, String.data_append, String.data_append]
      have hsp : (" " : String).data = [' '] := rfl
      rw [hsp, List.append_assoc, List.singleton_append,
        splitSpace_append w.data _ (hw w (by simp)), List.map_cons]
      have hww : String.mk w.data = w := rfl
      rw [hww]
      have htail := ih (by simp) (fun x hx c hc => hw x (by simp [hx]) c hc)
      unfold CryptoManager.tokens at htail
      rw [htail]

/-- Claim C7: `generateSeedPhrase` always returns a string of exactly 12
space-separated tokens, each drawn (at the random index `idx i`, uniform
on the 32 entries) from the fixed wordlist; the wordlist has exactly 32
entries.  The last conjunct exhibits the tokens as the independently
indexed draws, with replacement; the uniformity and independence of
`Math.random` itself are properties of the environment, represented by
quantifying over every possible index function. -/
theorem c7_seed_phrase_shape (idx : Fin 12 → Fin 32) :
    CryptoManager.words.length = 32 ∧
    (CryptoManager.tokens (CryptoManager.generateSeedPhrase idx)).length = 12 ∧
    (∀ t ∈ CryptoManager.tokens (CryptoManager.generateSeedPhrase idx),
      t ∈ CryptoManager.words) ∧
    CryptoManager.tokens (CryptoManager.generateSeedPhrase idx)
      = (List.finRange 12).map fun i => CryptoManager.words.getD (idx i).val "" := by
  have hwords : ∀ w ∈ CryptoManager.words, ∀ c ∈ w.data, ¬ c = ' ' := by decide
  have hmem : ∀ n : Fin 32, CryptoManager.words.getD n.val "" ∈ CryptoManager.words := by decide
  have hsel : ∀ w ∈ (List.finRange 12).map (fun i => CryptoManager.words.getD (idx i).val ""),
      ∀ c ∈ w.data, ¬ c = ' ' := by
    intro w hwm
    rcases List.mem_map.mp hwm with ⟨i, _, rfl⟩
    exact hwords _ (hmem (idx i))
  have htok := tokens_joinSpace
    ((List.finRange 12).map fun i => CryptoManager.words.getD (idx i).val "")
    (by simp) hsel
  have hgen : CryptoManager.tokens (CryptoManager.generateSeedPhrase idx)
      = (List.finRange 12).map fun i => CryptoManager.words.getD (idx i).val "" := by
    unfold CryptoManager.generateSeedPhrase
    exact htok
  refine ⟨rfl, ?_, ?_, hgen⟩
  · rw [hgen]
    simp
  · intro t ht
    rw [hgen] at ht
    rcases List.mem_map.mp ht with ⟨i, _, rfl⟩
    exact hmem (idx i)

/-- Claim C8: `deriveKeyFromSeed` is deterministic — the same phrase gives
byte-identical key material — and is exactly PBKDF2 with SHA-256, 100000
iterations, the fixed salt `sb_finance_salt_2024` and a 256-bit output
(so the encoded key decodes to 32 bytes). -/
theorem c8_derive_key_deterministic (K : CryptoManager.KDF) (p q : String) (hpq : p = q) :
    CryptoManager.deriveKeyFromSeed K p = CryptoManager.deriveKeyFromSeed K q ∧
    CryptoManager.deriveKeyFromSeed K p
      = CryptoManager.arrayBufferToBase64
          (K.deriveBits (stringToUtf8 p) (stringToUtf8 "sb_finance_salt_2024")
            100000 "SHA-256" 256) ∧
    (CryptoManager.base64ToArrayBuffer (CryptoManager.deriveKeyFromSeed K p)).length = 32 := by
  subst hpq
  refine ⟨rfl, rfl, ?_⟩
  unfold CryptoManager.deriveKeyFromSeed
  rw [b64_roundtrip _ (K.lt _ _ _ _ _), K.length_eq]

/-- Witness for C8 at a concrete phrase. -/
theorem c8_witness :
    ("абрикос банан вишня" : String) = "абрикос банан вишня" ∧
    CryptoManager.deriveKeyFromSeed modelKDF "абрикос банан вишня"
      = CryptoManager.deriveKeyFromSeed modelKDF "абрикос банан вишня" ∧
    (CryptoManager.base64ToArrayBuffer
        (CryptoManager.deriveKeyFromSeed modelKDF "абрикос банан вишня")).length = 32 :=
  ⟨rfl, (c8_derive_key_deterministic modelKDF _ _ rfl).1,
    (c8_derive_key_deterministic modelKDF "абрикос банан вишня" _ rfl).2.2⟩

end SBF

namespace SBF

/-- Claim C6: whenever authenticated decryption succeeds but the decrypted
plaintext is not valid JSON, `decryptObject` fails with
`malformedPayload` (the `SyntaxError` from `JSON.parse`), a failure
distinct from `decryptionFailed`. -/
theorem c6_malformed_payload (A : AEAD) (env key txt : String)
    (hdec : CryptoManager.decrypt A env key = some txt)
    (hjson : parseJson txt = none) :
    CryptoManager.decryptObject A env key
      = Except.error CryptoManager.CryptoErr.malformedPayload ∧
    CryptoManager.CryptoErr.malformedPayload ≠ CryptoManager.CryptoErr.decryptionFailed := by
  refine ⟨?_, by decide⟩
  unfold CryptoManager.decryptObject
  rw [hdec]
  dsimp only
  rw [hjson]

/-- Witness for C6: a real envelope of the non-JSON plaintext `hello`. -/
theorem c6_witness :
    CryptoManager.decrypt modelAEAD
        ((CryptoManager.encrypt modelAEAD "hello" (CryptoManager.generateKey (List.range 32))
            (List.range 12)).getD "")
        (CryptoManager.generateKey (List.range 32)) = some "hello" ∧
    parseJson "hello" = none ∧
    CryptoManager.decryptObject modelAEAD
        ((CryptoManager.encrypt modelAEAD "hello" (CryptoManager.generateKey (List.range 32))
            (List.range 12)).getD "")
        (CryptoManager.generateKey (List.range 32))
      = Except.error CryptoManager.CryptoErr.malformedPayload :=
  ⟨rfl, rfl,
    (c6_malformed_payload modelAEAD
      ((CryptoManager.encrypt modelAEAD "hello" (CryptoManager.generateKey (List.range 32))
          (List.range 12)).getD "")
      (CryptoManager.generateKey (List.range 32)) "hello" rfl rfl).1⟩

theorem fetch_enabled_eq (A : AEAD) (fresh : String) (iv : List Nat)
    (transport : EncryptedFetch.Options → EncryptedFetch.NetResponse)
    (st : EncryptionStorage.Store) (opts : EncryptedFetch.Options) :
    EncryptedFetch.fetch A fresh iv transport true st opts
      = (match EncryptedFetch.transformRequest A
            (EncryptionStorage.getOrCreateKey fresh st).1 iv opts with
         | Except.error e => (Except.error e, (EncryptionStorage.getOrCreateKey fresh st).2)
         | Except.ok opts2 =>
            (EncryptedFetch.processResponse A (EncryptionStorage.getOrCreateKey fresh st).1
              (transport opts2),
              (EncryptionStorage.getOrCreateKey fresh st).2)) := rfl

/-- Claim C2: a call of `EncryptedFetch.fetch` with encryption enabled
whose enveloped response fails to decrypt rejects with that failure; it
never resolves with the undecrypted ciphertext as the response body. -/
theorem c2_decrypt_failure_rejects (A : AEAD) (fresh : String) (iv : List Nat)
    (transport : EncryptedFetch.Options → EncryptedFetch.NetResponse)
    (st st2 : EncryptionStorage.Store) (opts opts2 : EncryptedFetch.Options)
    (key : String) (resp : EncryptedFetch.NetResponse) (data : Json) (d : String)
    (e : CryptoManager.CryptoErr)
    (hkey : EncryptionStorage.getOrCreateKey fresh st = (key, st2))
    (hreq : EncryptedFetch.transformRequest A key iv opts = Except.ok opts2)
    (hresp : transport opts2 = resp)
    (hused : resp.bodyUsed = false)
    (hct : EncryptedFetch.contentTypeJson resp = true)
    (hparse : parseJson resp.body = some data)
    (henc : truthy (getField data "encrypted") = true)
    (hdata : getField data "data" = some (Json.str d))
    (hd : truthy (some (Json.str d)) = true)
    (hfail : CryptoManager.decryptObject A d key = Except.error e) :
    (EncryptedFetch.fetch A fresh iv transport true st opts).1
      = Except.error (EncryptedFetch.FetchErr.crypto e) := by
  rw [fetch_enabled_eq, hkey]
  dsimp only
  rw [hreq]
  dsimp only
  rw [hresp]
  unfold EncryptedFetch.processResponse
  rw [if_pos hct, if_neg (by rw [hused]; simp)]
  rw [hparse]
  dsimp only
  have hcond : (truthy (getField data "encrypted") && truthy (getField data "data")) = true := by
    simp [henc, hdata, hd]
  rw [if_pos hcond, hdata]
  dsimp only [SBF.jsToString]
  rw [hfail]

end SBF

namespace SBF

/-- Witness for C2: a concrete enveloped response whose `data` is too
short to carry an authentication tag, so decryption fails; the whole
`fetch` call rejects with that failure. -/
theorem c2_witness :
    EncryptedFetch.contentTypeJson
      ⟨200, "OK", [("content-type", "application/json")],
        "\x7b\"encrypted\":true,\"data\":\"AAAA\"\x7d", false⟩ = true ∧
    CryptoManager.decryptObject modelAEAD "AAAA" (CryptoManager.generateKey (List.range 32))
      = Except.error CryptoManager.CryptoErr.decryptionFailed ∧
    (EncryptedFetch.fetch modelAEAD "unused" []
        (fun _ => ⟨200, "OK", [("content-type", "application/json")],
          "\x7b\"encrypted\":true,\"data\":\"AAAA\"\x7d", false⟩)
        true
        ⟨some (CryptoManager.generateKey (List.range 32)), none⟩
        ⟨EncryptedFetch.BodyVal.undef, none⟩).1
      = Except.error (EncryptedFetch.FetchErr.crypto CryptoManager.CryptoErr.decryptionFailed) :=
  ⟨rfl, rfl,
    c2_decrypt_failure_rejects modelAEAD "unused" []
      (fun _ => ⟨200, "OK", [("content-type", "application/json")],
        "\x7b\"encrypted\":true,\"data\":\"AAAA\"\x7d", false⟩)
      ⟨some (CryptoManager.generateKey (List.range 32)), none⟩
      ⟨some (CryptoManager.generateKey (List.range 32)), none⟩
      ⟨EncryptedFetch.BodyVal.undef, none⟩
      ⟨EncryptedFetch.BodyVal.undef, none⟩
      (CryptoManager.generateKey (List.range 32))
      ⟨200, "OK", [("content-type", "application/json")],
        "\x7b\"encrypted\":true,\"data\":\"AAAA\"\x7d", false⟩
      (Json.obj [("encrypted", Json.bool true), ("data", Json.str "AAAA")])
      "AAAA" CryptoManager.CryptoErr.decryptionFailed
      rfl rfl rfl rfl rfl rfl rfl rfl rfl rfl⟩

/-- Claim C10: with encryption enabled, a request whose body is absent or
not a string is dispatched with that body unchanged — no encryption is
applied and no failure is raised at the request stage; the transport
receives the original options. -/
theorem c10_nonstring_body_unchanged (A : AEAD) (fresh : String) (iv : List Nat)
    (transport : EncryptedFetch.Options → EncryptedFetch.NetResponse)
    (st st2 : EncryptionStorage.Store) (opts : EncryptedFetch.Options) (key : String)
    (hkey : EncryptionStorage.getOrCreateKey fresh st = (key, st2))
    (hbody : ∀ s, opts.body ≠ EncryptedFetch.BodyVal.str s) :
    EncryptedFetch.transformRequest A key iv opts = Except.ok opts ∧
    EncryptedFetch.fetch A fresh iv transport true st opts
      = (EncryptedFetch.processResponse A key (transport opts), st2) := by
  have ht : EncryptedFetch.transformRequest A key iv opts = Except.ok opts := by
    unfold EncryptedFetch.transformRequest
    cases hb : opts.body with
    | undef => rfl
    | str s => exact absurd hb (hbody s)
    | other => rfl
  refine ⟨ht, ?_⟩
  rw [fetch_enabled_eq, hkey]
  dsimp only
  rw [ht]

/-- Witness for C10 at a concrete non-string body. -/
theorem c10_witness :
    EncryptedFetch.transformRequest modelAEAD "S2V5" []
        ⟨EncryptedFetch.BodyVal.other, some [("X-A", "1")]⟩
      = Except.ok ⟨EncryptedFetch.BodyVal.other, some [("X-A", "1")]⟩ ∧
    EncryptedFetch.fetch modelAEAD "RnJlc2g=" []
        (fun _ => ⟨204, "No Content", [], "", false⟩) true
        ⟨some "S2V5", none⟩ ⟨EncryptedFetch.BodyVal.other, some [("X-A", "1")]⟩
      = (EncryptedFetch.processResponse modelAEAD "S2V5"
          ((fun _ => (⟨204, "No Content", [], "", false⟩ : EncryptedFetch.NetResponse))
            (⟨EncryptedFetch.BodyVal.other, some [("X-A", "1")]⟩ : EncryptedFetch.Options)),
          ⟨some "S2V5", none⟩) :=
  c10_nonstring_body_unchanged modelAEAD "RnJlc2g=" []
    (fun _ => (⟨204, "No Content", [], "", false⟩ : EncryptedFetch.NetResponse))
    ⟨some "S2V5", none⟩ ⟨some "S2V5", none⟩
    ⟨EncryptedFetch.BodyVal.other, some [("X-A", "1")]⟩ "S2V5"
    rfl (fun _ h => EncryptedFetch.BodyVal.noConfusion h)

/-- Claim C3, the failing scenario (code bug): a response whose
content type is JSON and whose JSON body is not the transport form
(here `the object with the single field x`) is "passed through" as the
same response object whose body `response.json()` has already consumed
(`bodyUsed` has become `true`), so its body-read behaviour is
distinguishable from the original unencrypted response (whose `bodyUsed`
was `false`): any subsequent `json()`/`text()` call on it rejects. -/
theorem c3_passthrough_consumed_body :
    parseJson "\x7b\"x\":1\x7d" = some (Json.obj [("x", Json.num ['1'])]) ∧
    truthy (getField (Json.obj [("x", Json.num ['1'])]) "encrypted") = false ∧
    EncryptedFetch.processResponse modelAEAD "S2V5"
        ⟨200, "OK", [("Content-Type", "application/json")], "\x7b\"x\":1\x7d", false⟩
      = Except.ok ⟨200, "OK", [("Content-Type", "application/json")], "\x7b\"x\":1\x7d", true⟩ :=
  ⟨rfl, rfl, rfl⟩

end SBF
